import Mathlib

/-!
Verification of the three-point curve measurement pipeline of
`src/scripts/threePointsCurve.js` / `src/scripts/ThreePointsCurve.js`
(class `ThreePointsCurve`): point capture on left click, Catmull-Rom
curve fitting, uniform sampling, and arc-length accumulation.

Real (`ℝ`) arithmetic models the JavaScript float64 arithmetic.
`Cesium.CatmullRomSpline` is an external library dependency of the
repository; its evaluation is modelled from the specification (§4.1).
-/

noncomputable section

/-- A 3D Cartesian point, mirroring `Cesium.Cartesian3`. -/
structure Cartesian3 where
  x : ℝ
  y : ℝ
  z : ℝ

/-- The zero vector, used as the default element for list indexing. -/
def origin : Cartesian3 := ⟨0, 0, 0⟩

instance : Inhabited Cartesian3 := ⟨origin⟩

/-- Componentwise difference of two points (`Cesium.Cartesian3.subtract`). -/
def sub (p q : Cartesian3) : Cartesian3 := ⟨p.x - q.x, p.y - q.y, p.z - q.z⟩

/-- Scalar multiple of a point (`Cesium.Cartesian3.multiplyByScalar`). -/
def smul (c : ℝ) (p : Cartesian3) : Cartesian3 := ⟨c * p.x, c * p.y, c * p.z⟩

/-- The Euclidean distance between two points (`Cesium.Cartesian3.distance`). -/
def cartesianDistance (p q : Cartesian3) : ℝ :=
  Real.sqrt ((p.x - q.x) ^ 2 + (p.y - q.y) ^ 2 + (p.z - q.z) ^ 2)

/-- Embedding of `measureCurveDistance` (threePointsCurve.js lines 170-178): the JS
`reduce` over the sampled points, adding `distance(arr[i-1], arr[i])` for
every index `i > 0`, starting from accumulator `0`. -/
def measureCurveDistance (curvePoints : List Cartesian3) : ℝ :=
  (List.range curvePoints.length).foldl
    (fun acc i =>
      if 0 < i then
        acc + cartesianDistance (curvePoints.getD (i - 1) origin) (curvePoints.getD i origin)
      else acc)
    0

/-- The scalar cubic Hermite form used by each spline segment:
value `v0` with derivative `d0` at `s = 0`, value `v1` with derivative `d1`
at `s = 1`, on a segment of parameter width `h`. -/
def hermiteScalar (v0 v1 d0 d1 h s : ℝ) : ℝ :=
  (2 * s ^ 3 - 3 * s ^ 2 + 1) * v0 + h * (s ^ 3 - 2 * s ^ 2 + s) * d0
    + (-2 * s ^ 3 + 3 * s ^ 2) * v1 + h * (s ^ 3 - s ^ 2) * d1

/-- A componentwise cubic Hermite segment between two points. -/
def hermiteSegment (v0 v1 d0 d1 : Cartesian3) (h s : ℝ) : Cartesian3 :=
  ⟨hermiteScalar v0.x v1.x d0.x d1.x h s,
   hermiteScalar v0.y v1.y d0.y d1.y h s,
   hermiteScalar v0.z v1.z d0.z d1.z h s⟩

/-- Modelled from the spec: `Cesium.CatmullRomSpline` (constructed in
`createCurvePoints` with `times: [0, 0.5, 1]` and
`points: [startPoint, middlePoint, endPoint]`) is an external library
dependency whose code is not part of this repository.  Per spec §4.1 it is a
3-point clamped interpolating spline: knots {0, 0.5, 1} map to
{start, middle, end}, the curve is C¹ across the interior knot, and the two
endpoints use one-sided tangent estimation.  The tangents below are the
one-sided difference quotients over the knot gaps (so a uniformly
parameterized straight segment is reproduced exactly), and each half is the
cubic Hermite segment those tangents determine. -/
def catmullRomSplineEvaluate (startPoint middlePoint endPoint : Cartesian3) (t : ℝ) :
    Cartesian3 :=
  let firstTangent := smul 2 (sub middlePoint startPoint)
  let middleTangent := sub endPoint startPoint
  let lastTangent := smul 2 (sub endPoint middlePoint)
  if t ≤ 1 / 2 then
    hermiteSegment startPoint middlePoint firstTangent middleTangent (1 / 2) (2 * t)
  else
    hermiteSegment middlePoint endPoint middleTangent lastTangent (1 / 2) (2 * t - 1)

/-- The sampler interface of spec §6: evaluate a curve at the `numPoints`
parameter values `i / numPoints` for `i = 0 .. numPoints - 1`. -/
def sampleCurve (curve : ℝ → Cartesian3) (numPoints : ℕ) : List Cartesian3 :=
  (List.range numPoints).map (fun i : ℕ => curve ((i : ℝ) / (numPoints : ℝ)))

/-- Embedding of `createCurvePoints` (threePointsCurve.js lines 148-162): build the
spline through the three captured points and evaluate it at
`i / numInterpolationPoints` for `i = 0 .. numInterpolationPoints - 1`
(the JS `Array.from({ length: n }, (_, i) => spline.evaluate(i / n))`). -/
def createCurvePoints (startPoint middlePoint endPoint : Cartesian3)
    (numInterpolationPoints : ℕ) : List Cartesian3 :=
  (List.range numInterpolationPoints).map
    (fun i : ℕ => catmullRomSplineEvaluate startPoint middlePoint endPoint
      ((i : ℝ) / (numInterpolationPoints : ℝ)))

/-- The sample count computed by `handleCurveLeftClick`
(threePointsCurve.js lines 82-88):
`Math.max(Math.round(distance(start, middle) + distance(middle, end)) * 50, 50)`. -/
def numInterpolationPoints (start middle theEnd : Cartesian3) : ℤ :=
  max (round (cartesianDistance start middle + cartesianDistance middle theEnd) * 50) 50

/-- The observable outcome of one left-click: the pending captured points
(`this.pointEntities` positions) after the handler returns, and, when a
third point completed a triple, the curve points and total distance that
were computed. -/
structure ClickResult where
  pointEntities : List Cartesian3
  curveComputed : Option (List Cartesian3 × ℝ)

/-- Embedding of `handleCurveLeftClick` (threePointsCurve.js lines 61-118), restricted to
its capture state and numerical outputs: `pickPosition` misses return
immediately (`if (!Cesium.defined(cartesian)) return`); otherwise the picked
point is appended, and once 3 points are collected the curve is fitted,
sampled and measured and the pending points are reset
(`this.pointEntities.length = 0`). -/
def handleCurveLeftClick (pointEntities : List Cartesian3)
    (pickPosition : Option Cartesian3) : ClickResult :=
  match pickPosition with
  | none => ⟨pointEntities, none⟩
  | some cartesian =>
    let pts := pointEntities ++ [cartesian]
    if pts.length = 3 then
      let start := pts.getD 0 origin
      let middle := pts.getD 1 origin
      let theEnd := pts.getD 2 origin
      let n := (numInterpolationPoints start middle theEnd).toNat
      let curvePoints := createCurvePoints start middle theEnd n
      ⟨[], some (curvePoints, measureCurveDistance curvePoints)⟩
    else ⟨pts, none⟩

/-- The capture state reached from the initial empty state after a sequence
of left clicks (each click carrying its pick result). -/
def processClicks (picks : List (Option Cartesian3)) : List Cartesian3 :=
  picks.foldl (fun state pick => (handleCurveLeftClick state pick).pointEntities) []

/-- Recursive form of the arc-length accumulator: the sum of the distances
between consecutive points, used to reason about `measureCurveDistance`. -/
def polylineLength : List Cartesian3 → ℝ
  | [] => 0
  | [_] => 0
  | p :: q :: rest => cartesianDistance p q + polylineLength (q :: rest)

/-- The embedding of a point into `EuclideanSpace`, used to inherit the
triangle inequality for `cartesianDistance`. -/
def pointToEuclidean (p : Cartesian3) : EuclideanSpace ℝ (Fin 3) := ![p.x, p.y, p.z]

/-- The function `cartesianDistance` agrees with the `EuclideanSpace` metric. -/
lemma cartesianDistance_eq_dist (p q : Cartesian3) :
    cartesianDistance p q = dist (pointToEuclidean p) (pointToEuclidean q) := by
  rw [EuclideanSpace.dist_eq]
  simp [cartesianDistance, pointToEuclidean, Fin.sum_univ_three, Real.dist_eq, sq_abs]

lemma cartesianDistance_nonneg (p q : Cartesian3) : 0 ≤ cartesianDistance p q :=
  Real.sqrt_nonneg _

lemma cartesianDistance_self (p : Cartesian3) : cartesianDistance p p = 0 := by
  simp [cartesianDistance]

lemma cartesianDistance_comm (p q : Cartesian3) :
    cartesianDistance p q = cartesianDistance q p := by
  unfold cartesianDistance
  ring_nf

lemma cartesianDistance_triangle (p q r : Cartesian3) :
    cartesianDistance p r ≤ cartesianDistance p q + cartesianDistance q r := by
  rw [cartesianDistance_eq_dist, cartesianDistance_eq_dist, cartesianDistance_eq_dist]
  exact dist_triangle _ _ _

lemma foldl_range_add (f : ℕ → ℝ) :
    ∀ (n : ℕ) (a : ℝ),
      (List.range n).foldl (fun acc i => acc + f i) a = a + ∑ i ∈ Finset.range n, f i := by
  intro n
  induction n with
  | zero => simp
  | succ n ih =>
    intro a
    rw [List.range_succ, List.foldl_append, ih, Finset.sum_range_succ]
    simp [add_assoc]

/-- The JS `reduce` is the sum of the consecutive distances. -/
lemma measureCurveDistance_eq_sum (l : List Cartesian3) :
    measureCurveDistance l
      = ∑ i ∈ Finset.range (l.length - 1),
          cartesianDistance (l.getD i origin) (l.getD (i + 1) origin) := by
  unfold measureCurveDistance
  have hstep :
      (fun (acc : ℝ) i =>
          if 0 < i then
            acc + cartesianDistance (l.getD (i - 1) origin) (l.getD i origin)
          else acc)
        = fun (acc : ℝ) i =>
          acc + (if 0 < i then
            cartesianDistance (l.getD (i - 1) origin) (l.getD i origin) else 0) := by
    funext acc i
    split <;> simp
  rw [hstep, foldl_range_add, zero_add]
  cases hl : l.length with
  | zero => simp
  | succ m =>
    rw [Finset.sum_range_succ']
    simp

lemma polylineLength_eq_sum (l : List Cartesian3) :
    polylineLength l
      = ∑ i ∈ Finset.range (l.length - 1),
          cartesianDistance (l.getD i origin) (l.getD (i + 1) origin) := by
  induction l with
  | nil => simp [polylineLength]
  | cons p tail ih =>
    cases tail with
    | nil => simp [polylineLength]
    | cons q rest =>
      have hlen : (p :: q :: rest).length - 1 = rest.length + 1 := by
        simp
      rw [hlen, Finset.sum_range_succ']
      have hih := ih
      have hlen2 : (q :: rest).length - 1 = rest.length := by simp
      rw [hlen2] at hih
      simp only [polylineLength, hih, List.getD_cons_succ, List.getD_cons_zero]
      ring

lemma measureCurveDistance_eq_polylineLength (l : List Cartesian3) :
    measureCurveDistance l = polylineLength l := by
  rw [measureCurveDistance_eq_sum, polylineLength_eq_sum]

lemma polylineLength_nonneg (l : List Cartesian3) : 0 ≤ polylineLength l := by
  induction l with
  | nil => simp [polylineLength]
  | cons p tail ih =>
    cases tail with
    | nil => simp [polylineLength]
    | cons q rest =>
      have := cartesianDistance_nonneg p q
      simp only [polylineLength]
      positivity

lemma polylineLength_le_cons (p : Cartesian3) (l : List Cartesian3) :
    polylineLength l ≤ polylineLength (p :: l) := by
  cases l with
  | nil => simp [polylineLength]
  | cons q rest =>
    have := cartesianDistance_nonneg p q
    simp only [polylineLength]
    linarith

lemma polylineLength_cons_le (x a : Cartesian3) (l : List Cartesian3) :
    polylineLength (x :: l) ≤ cartesianDistance x a + polylineLength (a :: l) := by
  cases l with
  | nil =>
    have := cartesianDistance_nonneg x a
    simp [polylineLength]
    linarith
  | cons y rest =>
    have h1 := cartesianDistance_triangle x a y
    simp only [polylineLength]
    linarith

lemma polylineLength_sublist_cons {s l : List Cartesian3} (h : s.Sublist l) :
    ∀ x, polylineLength (x :: s) ≤ polylineLength (x :: l) := by
  induction h with
  | slnil => intro x; exact le_refl _
  | cons a hsub ih =>
    intro x
    calc polylineLength (x :: _) ≤ cartesianDistance x a + polylineLength (a :: _) :=
          polylineLength_cons_le x a _
    _ ≤ cartesianDistance x a + polylineLength (a :: _) := by
          have := ih a
          linarith
    _ = polylineLength (x :: a :: _) := by simp [polylineLength]
  | cons₂ a hsub ih =>
    intro x
    have := ih a
    simp only [polylineLength]
    linarith

lemma polylineLength_sublist {s l : List Cartesian3} (h : s.Sublist l) :
    polylineLength s ≤ polylineLength l := by
  induction h with
  | slnil => exact le_refl _
  | cons a hsub ih => exact le_trans ih (polylineLength_le_cons a _)
  | cons₂ a hsub ih => exact polylineLength_sublist_cons hsub a

lemma getLastD_cons_cons (a b : Cartesian3) (l : List Cartesian3) (d : Cartesian3) :
    (a :: b :: l).getLastD d = (b :: l).getLastD d := by
  rw [List.getLastD_cons, List.getLastD_cons, List.getLastD_cons]

lemma polylineLength_cons_cons (a b : Cartesian3) (l : List Cartesian3) :
    polylineLength (a :: b :: l) = cartesianDistance a b + polylineLength (b :: l) := rfl

lemma polylineLength_concat_cons (p : Cartesian3) :
    ∀ (l : List Cartesian3) (a : Cartesian3),
      polylineLength ((a :: l) ++ [p])
        = polylineLength (a :: l) + cartesianDistance ((a :: l).getLastD origin) p := by
  intro l
  induction l with
  | nil =>
    intro a
    simp [polylineLength, List.getLastD_cons]
  | cons b rest ih =>
    intro a
    have hih := ih b
    rw [List.cons_append] at hih
    rw [List.cons_append, List.cons_append]
    rw [getLastD_cons_cons, polylineLength_cons_cons, polylineLength_cons_cons, hih]
    ring

lemma polylineLength_concat (l : List Cartesian3) (hl : l ≠ []) (p : Cartesian3) :
    polylineLength (l ++ [p])
      = polylineLength l + cartesianDistance (l.getLastD origin) p := by
  cases l with
  | nil => exact absurd rfl hl
  | cons a rest => exact polylineLength_concat_cons p rest a

lemma getLastD_reverse (l : List Cartesian3) (hl : l ≠ []) :
    l.reverse.getLastD origin = l.headD origin := by
  cases l with
  | nil => exact absurd rfl hl
  | cons a rest =>
    rw [List.reverse_cons]
    simp [List.getLastD_concat]

lemma polylineLength_reverse (l : List Cartesian3) :
    polylineLength l.reverse = polylineLength l := by
  induction l with
  | nil => rfl
  | cons a tail ih =>
    cases tail with
    | nil => rfl
    | cons b rest =>
      rw [List.reverse_cons]
      have hne : (b :: rest).reverse ≠ [] := by simp
      rw [polylineLength_concat _ hne a, ih, getLastD_reverse _ (by simp)]
      rw [polylineLength_cons_cons, List.headD_cons, cartesianDistance_comm]
      ring

lemma polylineLength_ge_head_last :
    ∀ (l : List Cartesian3) (a : Cartesian3),
      cartesianDistance a ((a :: l).getLastD origin) ≤ polylineLength (a :: l) := by
  intro l
  induction l with
  | nil =>
    intro a
    simp [polylineLength, List.getLastD_cons, cartesianDistance_self]
  | cons b rest ih =>
    intro a
    rw [getLastD_cons_cons]
    calc cartesianDistance a ((b :: rest).getLastD origin)
        ≤ cartesianDistance a b + cartesianDistance b ((b :: rest).getLastD origin) :=
          cartesianDistance_triangle _ _ _
    _ ≤ cartesianDistance a b + polylineLength (b :: rest) := by
          have := ih b
          linarith
    _ = polylineLength (a :: b :: rest) := (polylineLength_cons_cons a b rest).symm

lemma polylineLength_replicate (a : Cartesian3) :
    ∀ n : ℕ, polylineLength (List.replicate n a) = 0 := by
  intro n
  induction n with
  | zero => rfl
  | succ n ih =>
    cases n with
    | zero => rfl
    | succ m =>
      rw [List.replicate_succ, List.replicate_succ]
      rw [List.replicate_succ] at ih
      rw [polylineLength_cons_cons, cartesianDistance_self, ih]
      ring

lemma hermiteScalar_zero (v0 v1 d0 d1 h : ℝ) : hermiteScalar v0 v1 d0 d1 h 0 = v0 := by
  unfold hermiteScalar
  ring

lemma hermiteScalar_one (v0 v1 d0 d1 h : ℝ) : hermiteScalar v0 v1 d0 d1 h 1 = v1 := by
  unfold hermiteScalar
  ring

lemma catmullRom_eval_zero (a b c : Cartesian3) :
    catmullRomSplineEvaluate a b c 0 = a := by
  simp only [catmullRomSplineEvaluate]
  rw [if_pos (by norm_num : (0 : ℝ) ≤ 1 / 2)]
  simp only [hermiteSegment, mul_zero, hermiteScalar_zero]

lemma catmullRom_eval_half (a b c : Cartesian3) :
    catmullRomSplineEvaluate a b c (1 / 2) = b := by
  simp only [catmullRomSplineEvaluate]
  rw [if_pos (le_refl ((1 : ℝ) / 2))]
  have h2 : (2 : ℝ) * (1 / 2) = 1 := by norm_num
  simp only [hermiteSegment, h2, hermiteScalar_one]

lemma catmullRom_eval_one (a b c : Cartesian3) :
    catmullRomSplineEvaluate a b c 1 = c := by
  simp only [catmullRomSplineEvaluate]
  rw [if_neg (by norm_num : ¬ (1 : ℝ) ≤ 1 / 2)]
  have h2 : (2 : ℝ) * 1 - 1 = 1 := by norm_num
  simp only [hermiteSegment, h2, hermiteScalar_one]

lemma hermiteScalar_cancel (v h s : ℝ) : hermiteScalar v v 0 0 h s = v := by
  unfold hermiteScalar
  ring

lemma catmullRom_eval_const (a : Cartesian3) (t : ℝ) :
    catmullRomSplineEvaluate a a a t = a := by
  simp only [catmullRomSplineEvaluate, sub, smul, sub_self, mul_zero, hermiteSegment]
  split <;> simp only [hermiteScalar_cancel]

lemma map_range_mul_sublist {α : Type} (f : ℕ → α) (k : ℕ) (hk : 1 ≤ k) :
    ∀ n : ℕ, (((List.range n).map fun j => f (j * k))).Sublist ((List.range (n * k)).map f) := by
  intro n
  induction n with
  | zero => simp
  | succ n ih =>
    rw [List.range_succ, List.map_append, Nat.succ_mul, List.range_add, List.map_append]
    refine List.Sublist.append ih ?_
    obtain ⟨m, rfl⟩ : ∃ m, k = m + 1 := ⟨k - 1, (Nat.succ_pred_eq_of_pos hk).symm⟩
    rw [List.range_succ_eq_map, List.map_cons, List.map_cons]
    rw [show n * (m + 1) + 0 = n * (m + 1) from rfl]
    exact (List.nil_sublist _).cons₂ _

lemma tendsto_hermite_branch (v0 v1 d0 d1 : ℝ) (g : ℝ → ℝ) :
    Filter.Tendsto
      (fun t => if t ≤ 1 / 2 then g t else hermiteScalar v0 v1 d0 d1 (1 / 2) (2 * t - 1))
      (nhdsWithin 1 (Set.Iio 1)) (nhds v1) := by
  have hcont : Continuous fun t : ℝ => hermiteScalar v0 v1 d0 d1 (1 / 2) (2 * t - 1) := by
    unfold hermiteScalar
    continuity
  have hval : hermiteScalar v0 v1 d0 d1 (1 / 2) (2 * 1 - 1) = v1 := by
    norm_num [hermiteScalar_one]
  have hpoly : Filter.Tendsto (fun t : ℝ => hermiteScalar v0 v1 d0 d1 (1 / 2) (2 * t - 1))
      (nhdsWithin 1 (Set.Iio 1)) (nhds v1) := by
    have h := (hcont.tendsto 1).mono_left (nhdsWithin_le_nhds (s := Set.Iio 1))
    rw [hval] at h
    exact h
  refine hpoly.congr' ?_
  have hmem : Set.Ioo (1 / 2 : ℝ) 1 ∈ nhdsWithin (1 : ℝ) (Set.Iio 1) :=
    Ioo_mem_nhdsWithin_Iio (by constructor <;> norm_num)
  filter_upwards [hmem] with t ht
  rw [if_neg (by linarith [ht.1])]

lemma catmullRom_component_x (a b c : Cartesian3) (t : ℝ) :
    (catmullRomSplineEvaluate a b c t).x
      = if t ≤ 1 / 2 then
          hermiteScalar a.x b.x (2 * (b.x - a.x)) (c.x - a.x) (1 / 2) (2 * t)
        else
          hermiteScalar b.x c.x (c.x - a.x) (2 * (c.x - b.x)) (1 / 2) (2 * t - 1) := by
  simp only [catmullRomSplineEvaluate, sub, smul, hermiteSegment]
  split <;> rfl

lemma catmullRom_component_y (a b c : Cartesian3) (t : ℝ) :
    (catmullRomSplineEvaluate a b c t).y
      = if t ≤ 1 / 2 then
          hermiteScalar a.y b.y (2 * (b.y - a.y)) (c.y - a.y) (1 / 2) (2 * t)
        else
          hermiteScalar b.y c.y (c.y - a.y) (2 * (c.y - b.y)) (1 / 2) (2 * t - 1) := by
  simp only [catmullRomSplineEvaluate, sub, smul, hermiteSegment]
  split <;> rfl

lemma catmullRom_component_z (a b c : Cartesian3) (t : ℝ) :
    (catmullRomSplineEvaluate a b c t).z
      = if t ≤ 1 / 2 then
          hermiteScalar a.z b.z (2 * (b.z - a.z)) (c.z - a.z) (1 / 2) (2 * t)
        else
          hermiteScalar b.z c.z (c.z - a.z) (2 * (c.z - b.z)) (1 / 2) (2 * t - 1) := by
  simp only [catmullRomSplineEvaluate, sub, smul, hermiteSegment]
  split <;> rfl

lemma createCurvePoints_head (a b c : Cartesian3) (m : ℕ) :
    ∃ tail, createCurvePoints a b c (m + 1) = a :: tail := by
  unfold createCurvePoints
  rw [List.range_succ_eq_map, List.map_cons, Nat.cast_zero, zero_div, catmullRom_eval_zero]
  exact ⟨_, rfl⟩

lemma getLastD_map_range {α : Type} [Inhabited α] (f : ℕ → α) (n : ℕ) (hn : 1 ≤ n)
    (d : α) : ((List.range n).map f).getLastD d = f (n - 1) := by
  obtain ⟨m, rfl⟩ : ∃ m, n = m + 1 := ⟨n - 1, (Nat.succ_pred_eq_of_pos hn).symm⟩
  rw [List.range_succ, List.map_append, List.map_cons, List.map_nil, List.getLastD_concat]
  simp

lemma cartesianDistance_axis (x1 x2 : ℝ) :
    cartesianDistance ⟨x1, 0, 0⟩ ⟨x2, 0, 0⟩ = |x1 - x2| := by
  unfold cartesianDistance
  simp only
  rw [show (x1 - x2) ^ 2 + (0 - 0 : ℝ) ^ 2 + (0 - 0 : ℝ) ^ 2 = (x1 - x2) ^ 2 by ring]
  exact Real.sqrt_sq_eq_abs _

lemma polylineLength_axis (β : ℝ) (hβ : 0 < β) :
    ∀ n : ℕ, 1 ≤ n →
      polylineLength ((List.range n).map fun i : ℕ => (⟨(i : ℝ) / β, 0, 0⟩ : Cartesian3))
        = ((n : ℝ) - 1) / β := by
  intro n
  induction n with
  | zero => intro h; exact absurd h (by norm_num)
  | succ n ih =>
    intro _
    cases Nat.eq_zero_or_pos n with
    | inl h0 =>
      subst h0
      simp [polylineLength]
    | inr hpos =>
      rw [List.range_succ, List.map_append, List.map_cons, List.map_nil]
      have hne : ((List.range n).map fun i : ℕ => (⟨(i : ℝ) / β, 0, 0⟩ : Cartesian3)) ≠ [] := by
        simp
        omega
      rw [polylineLength_concat _ hne, ih hpos,
        getLastD_map_range _ n hpos, cartesianDistance_axis]
      have hcast : ((n - 1 : ℕ) : ℝ) = (n : ℝ) - 1 := by
        rw [Nat.cast_sub hpos, Nat.cast_one]
      rw [hcast]
      rw [show ((n : ℝ) - 1) / β - (n : ℝ) / β = -(1 / β) by ring, abs_neg,
        abs_of_pos (by positivity)]
      push_cast
      ring

lemma createCurvePoints_const (a : Cartesian3) (n : ℕ) :
    createCurvePoints a a a n = List.replicate n a := by
  unfold createCurvePoints
  rw [List.eq_replicate_iff]
  refine ⟨by simp, ?_⟩
  intro b hb
  simp only [List.mem_map] at hb
  obtain ⟨i, hi, rfl⟩ := hb
  exact catmullRom_eval_const a _

lemma handleCurveLeftClick_length_le (state : List Cartesian3) (pick : Option Cartesian3)
    (h : state.length ≤ 2) :
    ((handleCurveLeftClick state pick).pointEntities).length ≤ 2 := by
  cases pick with
  | none => exact h
  | some p =>
    simp only [handleCurveLeftClick]
    split
    · simp
    · rename_i hne
      simp only [List.length_append, List.length_cons, List.length_nil] at *
      omega

lemma processClicks_aux (picks : List (Option Cartesian3)) :
    ∀ state : List Cartesian3, state.length ≤ 2 →
      (picks.foldl (fun s pick => (handleCurveLeftClick s pick).pointEntities) state).length
        ≤ 2 := by
  induction picks with
  | nil => intro s h; exact h
  | cons p rest ih =>
    intro s h
    exact ih _ (handleCurveLeftClick_length_le s p h)

/-- C1: for every list of sampled points, `measureCurveDistance` equals the
sum over `i = 1 .. n-1` of the Euclidean distance between `points[i-1]` and
`points[i]`; for a list of 0 or 1 points the result is 0; and for every
input list the result is a non-negative real number. -/
theorem measureCurveDistance_spec :
    (∀ l : List Cartesian3,
      measureCurveDistance l
        = ∑ i ∈ Finset.range (l.length - 1),
            cartesianDistance (l.getD i origin) (l.getD (i + 1) origin))
    ∧ measureCurveDistance [] = 0
    ∧ (∀ p : Cartesian3, measureCurveDistance [p] = 0)
    ∧ (∀ l : List Cartesian3, 0 ≤ measureCurveDistance l) := by
  refine ⟨measureCurveDistance_eq_sum, by simp [measureCurveDistance], ?_, ?_⟩
  · intro p
    rw [measureCurveDistance_eq_sum]
    simp
  · intro l
    rw [measureCurveDistance_eq_polylineLength]
    exact polylineLength_nonneg l

/-- C2: for every curve and every `numPoints ≥ 1`, `sampleCurve` returns
exactly `numPoints` points, the `i`-th being the curve evaluated at
`i / numPoints`; every parameter used is strictly less than 1, so the curve
is never evaluated at `t = 1`. -/
theorem sampleCurve_spec (curve : ℝ → Cartesian3) (numPoints : ℕ) (h : 1 ≤ numPoints) :
    (sampleCurve curve numPoints).length = numPoints
    ∧ (∀ i : ℕ, i < numPoints →
        (sampleCurve curve numPoints).getD i origin = curve ((i : ℝ) / (numPoints : ℝ)))
    ∧ (∀ i : ℕ, i < numPoints → (i : ℝ) / (numPoints : ℝ) < 1) := by
  refine ⟨by simp [sampleCurve], ?_, ?_⟩
  · intro i hi
    simp only [sampleCurve]
    rw [List.getD_eq_getElem?_getD, List.getElem?_map, List.getElem?_range hi]
    rfl
  · intro i hi
    have hn : (0 : ℝ) < (numPoints : ℝ) := by exact_mod_cast h
    rw [div_lt_one hn]
    exact_mod_cast hi

/-- Witness for C2: the constant curve sampled at 2 points has length 2. -/
theorem sampleCurve_spec_witness :
    1 ≤ 2 ∧ (sampleCurve (fun _ => origin) 2).length = 2 :=
  ⟨by norm_num, (sampleCurve_spec (fun _ => origin) 2 (by norm_num)).1⟩

/-- C3: for every captured triple, the sample count passed to the sampler is
`max(round(dist(start,middle) + dist(middle,end)) * 50, 50)`; it is always
at least 50 and positive, and the click handler feeds exactly that count to
`createCurvePoints`. -/
theorem numInterpolationPoints_spec (s m e : Cartesian3) :
    numInterpolationPoints s m e
      = max (round (cartesianDistance s m + cartesianDistance m e) * 50) 50
    ∧ 50 ≤ numInterpolationPoints s m e
    ∧ 0 < numInterpolationPoints s m e
    ∧ (handleCurveLeftClick [s, m] (some e)).curveComputed
        = some (createCurvePoints s m e (numInterpolationPoints s m e).toNat,
            measureCurveDistance
              (createCurvePoints s m e (numInterpolationPoints s m e).toNat)) := by
  refine ⟨rfl, le_max_right _ _, lt_of_lt_of_le (by norm_num) (le_max_right _ _), ?_⟩
  rfl

/-- C4: the fitted curve passes through `a` at `t = 0` and through `b` at
`t = 0.5`, and approaches `c` (componentwise) as `t` tends to 1 from below. -/
theorem fitCurve_pass_through (a b c : Cartesian3) :
    catmullRomSplineEvaluate a b c 0 = a
    ∧ catmullRomSplineEvaluate a b c (1 / 2) = b
    ∧ Filter.Tendsto (fun t => (catmullRomSplineEvaluate a b c t).x)
        (nhdsWithin 1 (Set.Iio 1)) (nhds c.x)
    ∧ Filter.Tendsto (fun t => (catmullRomSplineEvaluate a b c t).y)
        (nhdsWithin 1 (Set.Iio 1)) (nhds c.y)
    ∧ Filter.Tendsto (fun t => (catmullRomSplineEvaluate a b c t).z)
        (nhdsWithin 1 (Set.Iio 1)) (nhds c.z) := by
  refine ⟨catmullRom_eval_zero a b c, catmullRom_eval_half a b c, ?_, ?_, ?_⟩
  · exact (tendsto_hermite_branch b.x c.x (c.x - a.x) (2 * (c.x - b.x)) _).congr
      (fun t => (catmullRom_component_x a b c t).symm)
  · exact (tendsto_hermite_branch b.y c.y (c.y - a.y) (2 * (c.y - b.y)) _).congr
      (fun t => (catmullRom_component_y a b c t).symm)
  · exact (tendsto_hermite_branch b.z c.z (c.z - a.z) (2 * (c.z - b.z)) _).congr
      (fun t => (catmullRom_component_z a b c t).symm)

/-- C6: a fully degenerate control triple (a, a, a) yields the constant
curve at `a`, and the measured length of its samples is 0 for every sample
count. -/
theorem degenerate_collapse (a : Cartesian3) (n : ℕ) :
    (∀ t : ℝ, catmullRomSplineEvaluate a a a t = a)
    ∧ measureCurveDistance (createCurvePoints a a a n) = 0 := by
  refine ⟨catmullRom_eval_const a, ?_⟩
  rw [createCurvePoints_const, measureCurveDistance_eq_polylineLength]
  exact polylineLength_replicate a n

/-- C8: a left click whose pick result is undefined short-circuits: no point
is added, the curve fitter is not invoked, and the capture state is left
unchanged. -/
theorem undefined_pick_short_circuits (state : List Cartesian3) :
    handleCurveLeftClick state none = ⟨state, none⟩ := rfl

/-- C9: starting from the empty capture state, the pending captured points
at the start of every left click number at most 2; and whenever a third
point completes a triple the curve computation runs and the pending points
are emptied before the handler returns. -/
theorem capture_state_resets :
    (∀ picks : List (Option Cartesian3), (processClicks picks).length ≤ 2)
    ∧ (∀ (pts : List Cartesian3) (p : Cartesian3), pts.length = 2 →
        (handleCurveLeftClick pts (some p)).pointEntities = []
        ∧ (handleCurveLeftClick pts (some p)).curveComputed.isSome = true) := by
  constructor
  · intro picks
    exact processClicks_aux picks [] (by simp)
  · intro pts p h
    have h3 : (pts ++ [p]).length = 3 := by simp [h]
    simp only [handleCurveLeftClick]
    rw [if_pos h3]
    exact ⟨rfl, rfl⟩

/-- Witness for C9 at the concrete two-point state `[origin, origin]`. -/
theorem capture_state_resets_witness :
    ([origin, origin] : List Cartesian3).length = 2
    ∧ (handleCurveLeftClick [origin, origin] (some origin)).pointEntities = [] :=
  ⟨rfl, (capture_state_resets.2 [origin, origin] origin rfl).1⟩

/-- C10: the arc-length accumulator is invariant under reversal of its
input list, since each summed term is a symmetric Euclidean distance. -/
theorem measureCurveDistance_reverse (l : List Cartesian3) :
    measureCurveDistance l.reverse = measureCurveDistance l := by
  rw [measureCurveDistance_eq_polylineLength, measureCurveDistance_eq_polylineLength]
  exact polylineLength_reverse l

/-- C5 (amended): for a fixed curve, the sampled length is non-decreasing
along nested refinements of the sample grid: multiplying the sample count
by any `k ≥ 1` never reports a shorter path (the coarse samples are a
sublist of the fine ones, so the chordal length can only grow). -/
theorem totalLength_monotone_nested (curve : ℝ → Cartesian3) (n k : ℕ) (hk : 1 ≤ k) :
    measureCurveDistance (sampleCurve curve n)
      ≤ measureCurveDistance (sampleCurve curve (n * k)) := by
  rw [measureCurveDistance_eq_polylineLength, measureCurveDistance_eq_polylineLength]
  have hk0 : ((k : ℕ) : ℝ) ≠ 0 := by
    rw [Nat.cast_ne_zero]
    omega
  have hmap : sampleCurve curve n
      = (List.range n).map fun j : ℕ =>
          (fun i : ℕ => curve ((i : ℝ) / ((n * k : ℕ) : ℝ))) (j * k) := by
    unfold sampleCurve
    refine List.map_congr_left ?_
    intro j hj
    simp only
    congr 1
    rw [Nat.cast_mul, Nat.cast_mul, mul_div_mul_right _ _ hk0]
  rw [hmap]
  unfold sampleCurve
  exact polylineLength_sublist
    (map_range_mul_sublist (fun i : ℕ => curve ((i : ℝ) / ((n * k : ℕ) : ℝ))) k hk n)

/-- Witness for C5 (amended) at the constant curve, `n = 1`, `k = 2`. -/
theorem totalLength_monotone_nested_witness :
    1 ≤ 2 ∧ measureCurveDistance (sampleCurve (fun _ => origin) 1)
      ≤ measureCurveDistance (sampleCurve (fun _ => origin) (1 * 2)) :=
  ⟨by norm_num, totalLength_monotone_nested (fun _ => origin) 1 2 (by norm_num)⟩

/-- C7 (amended): for every three points and every sample count `n ≥ 1`,
the sampled curve length is at least the straight-line distance from `a`
to the *last sample* (the curve at `t = (n-1)/n`) — not to `c` itself,
which the sampling never reaches. -/
theorem sampled_length_ge_distance_to_last (a b c : Cartesian3) (n : ℕ) (h : 1 ≤ n) :
    cartesianDistance a ((createCurvePoints a b c n).getLastD origin)
      ≤ measureCurveDistance (createCurvePoints a b c n) := by
  obtain ⟨m, rfl⟩ : ∃ m, n = m + 1 := ⟨n - 1, (Nat.succ_pred_eq_of_pos h).symm⟩
  obtain ⟨tail, heq⟩ := createCurvePoints_head a b c m
  rw [heq, measureCurveDistance_eq_polylineLength]
  exact polylineLength_ge_head_last tail a

/-- Witness for C7 (amended) at the degenerate triple and `n = 1`. -/
theorem sampled_length_ge_distance_to_last_witness :
    1 ≤ 1
    ∧ cartesianDistance origin ((createCurvePoints origin origin origin 1).getLastD origin)
      ≤ measureCurveDistance (createCurvePoints origin origin origin 1) :=
  ⟨le_refl 1, sampled_length_ge_distance_to_last origin origin origin 1 (le_refl 1)⟩

lemma cartesianDistance_mk (x1 y1 z1 x2 y2 z2 : ℝ) :
    cartesianDistance ⟨x1, y1, z1⟩ ⟨x2, y2, z2⟩
      = Real.sqrt ((x1 - x2) ^ 2 + (y1 - y2) ^ 2 + (z1 - z2) ^ 2) := rfl

lemma catmullRom_eval_lineX (t : ℝ) :
    catmullRomSplineEvaluate ⟨0, 0, 0⟩ ⟨1 / 2, 0, 0⟩ ⟨1, 0, 0⟩ t = ⟨t, 0, 0⟩ := by
  simp only [catmullRomSplineEvaluate, sub, smul, hermiteSegment]
  split <;>
    · simp only [Cartesian3.mk.injEq]
      refine ⟨?_, ?_, ?_⟩ <;> (unfold hermiteScalar; ring)

/-- C7 is false as stated: for the collinear triple (0,0,0), (1/2,0,0),
(1,0,0) the caller-computed sample count is 50, the fitted curve is the
straight segment, and the sampled length is 49/50, which is strictly LESS
than the straight-line distance dist(a, c) = 1 (the sampling stops at
t = 49/50 and never reaches c). -/
theorem sampled_length_lt_endpoint_distance :
    measureCurveDistance
        (createCurvePoints ⟨0, 0, 0⟩ ⟨1 / 2, 0, 0⟩ ⟨1, 0, 0⟩
          (numInterpolationPoints ⟨0, 0, 0⟩ ⟨1 / 2, 0, 0⟩ ⟨1, 0, 0⟩).toNat)
      < cartesianDistance ⟨0, 0, 0⟩ ⟨1, 0, 0⟩ := by
  have hd1 : cartesianDistance ⟨0, 0, 0⟩ ⟨1 / 2, 0, 0⟩ = 1 / 2 := by
    rw [cartesianDistance_mk,
      show ((0 : ℝ) - 1 / 2) ^ 2 + ((0 : ℝ) - 0) ^ 2 + ((0 : ℝ) - 0) ^ 2 = (1 / 2) ^ 2 by
        norm_num,
      Real.sqrt_sq (by norm_num : (0 : ℝ) ≤ 1 / 2)]
  have hd2 : cartesianDistance ⟨1 / 2, 0, 0⟩ ⟨1, 0, 0⟩ = 1 / 2 := by
    rw [cartesianDistance_mk,
      show ((1 : ℝ) / 2 - 1) ^ 2 + ((0 : ℝ) - 0) ^ 2 + ((0 : ℝ) - 0) ^ 2 = (1 / 2) ^ 2 by
        norm_num,
      Real.sqrt_sq (by norm_num : (0 : ℝ) ≤ 1 / 2)]
  have hdac : cartesianDistance ⟨0, 0, 0⟩ ⟨1, 0, 0⟩ = 1 := by
    rw [cartesianDistance_mk,
      show ((0 : ℝ) - 1) ^ 2 + ((0 : ℝ) - 0) ^ 2 + ((0 : ℝ) - 0) ^ 2 = (1 : ℝ) ^ 2 by
        norm_num,
      Real.sqrt_sq (by norm_num : (0 : ℝ) ≤ 1)]
  have hN : (numInterpolationPoints ⟨0, 0, 0⟩ ⟨1 / 2, 0, 0⟩ ⟨1, 0, 0⟩).toNat = 50 := by
    unfold numInterpolationPoints
    rw [hd1, hd2, show (1 : ℝ) / 2 + 1 / 2 = 1 by norm_num, round_one]
    decide
  have hmap : createCurvePoints ⟨0, 0, 0⟩ ⟨1 / 2, 0, 0⟩ ⟨1, 0, 0⟩ 50
      = (List.range 50).map fun i : ℕ => (⟨(i : ℝ) / 50, 0, 0⟩ : Cartesian3) := by
    unfold createCurvePoints
    refine List.map_congr_left ?_
    intro i hi
    rw [catmullRom_eval_lineX]
    norm_num
  rw [hN, hmap, measureCurveDistance_eq_polylineLength,
    polylineLength_axis 50 (by norm_num) 50 (by norm_num), hdac]
  norm_num

lemma catmullRom_counterexample_third :
    catmullRomSplineEvaluate ⟨0, 0, 0⟩ ⟨0, 10, 0⟩ ⟨1, 0, 0⟩ (1 / 3)
      = ⟨-2 / 27, 220 / 27, 0⟩ := by
  simp only [catmullRomSplineEvaluate, sub, smul, hermiteSegment]
  rw [if_pos (by norm_num : (1 : ℝ) / 3 ≤ 1 / 2)]
  simp only [Cartesian3.mk.injEq]
  unfold hermiteScalar
  norm_num

lemma catmullRom_counterexample_twoThirds :
    catmullRomSplineEvaluate ⟨0, 0, 0⟩ ⟨0, 10, 0⟩ ⟨1, 0, 0⟩ (2 / 3)
      = ⟨7 / 27, 220 / 27, 0⟩ := by
  simp only [catmullRomSplineEvaluate, sub, smul, hermiteSegment]
  rw [if_neg (by norm_num : ¬ (2 : ℝ) / 3 ≤ 1 / 2)]
  simp only [Cartesian3.mk.injEq]
  unfold hermiteScalar
  norm_num

/-- C5 is false as stated: for the fixed non-degenerate curve fitted
through the distinct, non-collinear control points (0,0,0), (0,10,0),
(1,0,0), refining the sampling from n = 2 to m = 3 points strictly
DECREASES the reported length (from 10 down to below 230/27 ≈ 8.52),
because the sample grids `i/2` and `i/3` are not nested. -/
theorem totalLength_not_monotone :
    (⟨0, 0, 0⟩ : Cartesian3) ≠ ⟨0, 10, 0⟩
    ∧ (⟨0, 10, 0⟩ : Cartesian3) ≠ ⟨1, 0, 0⟩
    ∧ (⟨0, 0, 0⟩ : Cartesian3) ≠ ⟨1, 0, 0⟩
    ∧ (¬ ∃ α : ℝ, sub ⟨1, 0, 0⟩ ⟨0, 0, 0⟩ = smul α (sub ⟨0, 10, 0⟩ ⟨0, 0, 0⟩))
    ∧ measureCurveDistance
        (sampleCurve (catmullRomSplineEvaluate ⟨0, 0, 0⟩ ⟨0, 10, 0⟩ ⟨1, 0, 0⟩) 3)
      < measureCurveDistance
        (sampleCurve (catmullRomSplineEvaluate ⟨0, 0, 0⟩ ⟨0, 10, 0⟩ ⟨1, 0, 0⟩) 2) := by
  refine ⟨?_, ?_, ?_, ?_, ?_⟩
  · intro h
    rw [Cartesian3.mk.injEq] at h
    norm_num at h
  · intro h
    rw [Cartesian3.mk.injEq] at h
    norm_num at h
  · intro h
    rw [Cartesian3.mk.injEq] at h
    norm_num at h
  · rintro ⟨α, hα⟩
    have hx := congrArg Cartesian3.x hα
    simp [sub, smul] at hx
  · have hs3 : sampleCurve (catmullRomSplineEvaluate ⟨0, 0, 0⟩ ⟨0, 10, 0⟩ ⟨1, 0, 0⟩) 3
        = [⟨0, 0, 0⟩, ⟨-2 / 27, 220 / 27, 0⟩, ⟨7 / 27, 220 / 27, 0⟩] := by
      unfold sampleCurve
      rw [show List.range 3 = [0, 1, 2] from rfl]
      simp only [List.map_cons, List.map_nil]
      rw [show ((0 : ℕ) : ℝ) / ((3 : ℕ) : ℝ) = 0 by norm_num,
        show ((1 : ℕ) : ℝ) / ((3 : ℕ) : ℝ) = 1 / 3 by norm_num,
        show ((2 : ℕ) : ℝ) / ((3 : ℕ) : ℝ) = 2 / 3 by norm_num,
        catmullRom_eval_zero, catmullRom_counterexample_third,
        catmullRom_counterexample_twoThirds]
    have hs2 : sampleCurve (catmullRomSplineEvaluate ⟨0, 0, 0⟩ ⟨0, 10, 0⟩ ⟨1, 0, 0⟩) 2
        = [⟨0, 0, 0⟩, ⟨0, 10, 0⟩] := by
      unfold sampleCurve
      rw [show List.range 2 = [0, 1] from rfl]
      simp only [List.map_cons, List.map_nil]
      rw [show ((0 : ℕ) : ℝ) / ((2 : ℕ) : ℝ) = 0 by norm_num,
        show ((1 : ℕ) : ℝ) / ((2 : ℕ) : ℝ) = 1 / 2 by norm_num,
        catmullRom_eval_zero, catmullRom_eval_half]
    rw [hs3, hs2, measureCurveDistance_eq_polylineLength,
      measureCurveDistance_eq_polylineLength]
    have hL2 : polylineLength [⟨0, 0, 0⟩, ⟨0, 10, 0⟩] = 10 := by
      show cartesianDistance _ _ + 0 = 10
      rw [cartesianDistance_mk,
        show ((0 : ℝ) - 0) ^ 2 + ((0 : ℝ) - 10) ^ 2 + ((0 : ℝ) - 0) ^ 2 = (10 : ℝ) ^ 2 by
          norm_num,
        Real.sqrt_sq (by norm_num : (0 : ℝ) ≤ 10)]
      ring
    have hd12 : cartesianDistance ⟨-2 / 27, 220 / 27, 0⟩ ⟨7 / 27, 220 / 27, 0⟩
        = 1 / 3 := by
      rw [cartesianDistance_mk,
        show ((-2 : ℝ) / 27 - 7 / 27) ^ 2 + ((220 : ℝ) / 27 - 220 / 27) ^ 2
            + ((0 : ℝ) - 0) ^ 2 = (1 / 3) ^ 2 by norm_num,
        Real.sqrt_sq (by norm_num : (0 : ℝ) ≤ 1 / 3)]
    have hd01 : cartesianDistance ⟨0, 0, 0⟩ ⟨-2 / 27, 220 / 27, 0⟩ < 221 / 27 := by
      rw [cartesianDistance_mk]
      rw [Real.sqrt_lt' (by norm_num : (0 : ℝ) < 221 / 27)]
      norm_num
    have hL3 : polylineLength [⟨0, 0, 0⟩, ⟨-2 / 27, 220 / 27, 0⟩, ⟨7 / 27, 220 / 27, 0⟩]
        = cartesianDistance ⟨0, 0, 0⟩ ⟨-2 / 27, 220 / 27, 0⟩
          + cartesianDistance ⟨-2 / 27, 220 / 27, 0⟩ ⟨7 / 27, 220 / 27, 0⟩ := by
      show cartesianDistance _ _ + (cartesianDistance _ _ + 0) = _
      ring
    rw [hL3, hL2, hd12]
    linarith
